import Mathlib

/-!
Verification development for the Code File Organizer
(`file_organizer.py`): a shallow embedding of the
classification-and-placement engine, the duplicate scanner and the
organizing walk, together with theorems settling the specification
claims.

Modelling conventions:
* Filesystem paths are lists of components (`List String`); joining
  paths is list append, `os.path.basename` is the last component,
  `os.path.dirname` drops it.  Category strings such as `"Web/HTML"`
  from `DEFAULT_MAPPINGS` are rendered as their component lists
  (`["Web", "HTML"]`), because `os.path.join` splits them at `/`.
* Strings are processed as `List Char`; Python semantics that only
  matter on ASCII data (lowercasing, `\w`, whitespace classes) are
  modelled on the ASCII fragment.
* The MD5 digest of `get_file_hash` is modelled by the file's byte
  content itself, i.e. as a collision-free digest: two files get equal
  digests exactly when their bytes are equal, which is the abstraction
  level at which the specification reasons about hashes.
* Fallible I/O is modelled by fields of the per-file record: a `none`
  first line / head models a `UnicodeDecodeError`, `readOk = false`
  models an `IOError` while hashing, `moveFails = true` models
  `shutil.move` raising.
-/

namespace FileOrganizer

/-! ## Path primitives -/

/-- `os.path.basename`: the last path component (empty for the empty path). -/
def basename (p : List String) : String := p.getLast?.getD ""

/-- `os.path.dirname`: all components but the last. -/
def dirname (p : List String) : List String := p.dropLast

/-- `os.path.relpath p base` on normalized absolute component lists:
strip the longest common prefix, then one `".."` per remaining base
component followed by the remaining components of `p`.  Python returns
`"."` for equal paths, which the caller immediately rewrites to the
empty path; here the empty list plays both roles. -/
def relpath : List String → List String → List String
  | p, [] => p
  | p, b :: bs =>
    match p with
    | [] => ".." :: relpath [] bs
    | a :: p2 => if a = b then relpath p2 bs else List.replicate (bs.length + 1) ".." ++ (a :: p2)

/-! ## Character classes and string helpers (ASCII fragment of Python) -/

/-- Python `\s` / `str.strip` whitespace, ASCII fragment. -/
def isPySpace (c : Char) : Bool :=
  c = ' ' || c = '\t' || c = '\n' || c = '\x0d' || c = '\x0b' || c = '\x0c'

/-- Python `\w` word character, ASCII fragment: letter, digit or underscore. -/
def isWordChar (c : Char) : Bool := c.isAlphanum || c = '_'

/-- Lowercase a string, as a character list (ASCII fragment of `str.lower`). -/
def lowerL (s : String) : List Char := s.toList.map Char.toLower

/-- Lowercase a string (ASCII fragment of `str.lower`). -/
def lowerStr (s : String) : String := String.mk (lowerL s)

/-- Python `str.strip()`: drop leading and trailing whitespace. -/
def pyStrip (s : String) : String :=
  String.mk (((s.toList.dropWhile isPySpace).reverse.dropWhile isPySpace).reverse)

/-- Python substring test `sub in s` on character lists. -/
def containsL (sub : List Char) (cs : List Char) : Bool :=
  cs.tails.any (fun t => sub.isPrefixOf t)

/-- Python substring test `sub in s`. -/
def containsStr (sub : String) (s : String) : Bool := containsL sub.toList s.toList

/-- Suffix test on a character list, for the anchored regex patterns. -/
def endsWithL (suf : String) (cs : List Char) : Bool := suf.toList.isSuffixOf cs

/-- Regex `lit ++ \w+$` anywhere: the name ends in a nonempty run of
word characters immediately preceded by the literal `lit`.  Because a
word-character run cannot contain the final `.` of `lit`, stripping the
maximal trailing word run is exactly the regex search. -/
def trailingWordAfter (lit : String) (cs : List Char) : Bool :=
  let rev := cs.reverse
  let w := rev.takeWhile isWordChar
  let rest := rev.dropWhile isWordChar
  (!w.isEmpty) && (lit.toList.reverse.isPrefixOf rest)

/-! ## `os.path.splitext` -/

/-- Split a basename around its last dot: `some (before, after)` when a
dot exists, where neither part contains that dot. -/
def splitLastDot : List Char → Option (List Char × List Char)
  | [] => none
  | c :: cs =>
    match splitLastDot cs with
    | some (b, a) => some (c :: b, a)
    | none => if c = '.' then some ([], cs) else none

/-- The extension part of `os.path.splitext` on a basename, dot
included (`""` when there is none).  CPython yields an extension only
when some character strictly before the last dot is not itself a dot,
so dotfiles such as `.env` have no extension. -/
def splitext_ext (name : String) : String :=
  match splitLastDot name.toList with
  | some (b, a) => if b.any (fun c => c ≠ '.') then String.mk ('.' :: a) else ""
  | none => ""

/-- The extension as used by `get_target_path`: `ext[1:].lower()`. -/
def extNoDot (name : String) : String :=
  match splitLastDot name.toList with
  | some (b, a) => if b.any (fun c => c ≠ '.') then String.mk (a.map Char.toLower) else ""
  | none => ""

/-! ## The mapping table -/

/-- `DEFAULT_MAPPINGS` from `file_organizer.py`, with each
category-path string split at `/` into its components. -/
def DEFAULT_MAPPINGS : List (String × List String) := [
  ("html", ["Web", "HTML"]),
  ("htm", ["Web", "HTML"]),
  ("css", ["Web", "CSS"]),
  ("scss", ["Web", "CSS"]),
  ("sass", ["Web", "CSS"]),
  ("less", ["Web", "CSS"]),
  ("js", ["Web", "JavaScript"]),
  ("jsx", ["Web", "React"]),
  ("ts", ["Web", "TypeScript"]),
  ("tsx", ["Web", "React"]),
  ("php", ["Web", "PHP"]),
  ("py", ["Python"]),
  ("java", ["Java"]),
  ("c", ["C"]),
  ("cpp", ["C++"]),
  ("cs", ["CSharp"]),
  ("go", ["Go"]),
  ("rs", ["Rust"]),
  ("rb", ["Ruby"]),
  ("swift", ["Swift"]),
  ("kt", ["Kotlin"]),
  ("json", ["Data", "JSON"]),
  ("xml", ["Data", "XML"]),
  ("yaml", ["Data", "YAML"]),
  ("yml", ["Data", "YAML"]),
  ("csv", ["Data", "CSV"]),
  ("xls", ["Data", "Excel"]),
  ("xlsx", ["Data", "Excel"]),
  ("md", ["Documentation", "Markdown"]),
  ("txt", ["Documentation", "Text"]),
  ("pdf", ["Documentation", "PDF"]),
  ("docx", ["Documentation", "Word"]),
  ("doc", ["Documentation", "Word"]),
  ("ini", ["Config"]),
  ("cfg", ["Config"]),
  ("conf", ["Config"]),
  ("env", ["Config"]),
  ("toml", ["Config"]),
  ("jpg", ["Media", "Images"]),
  ("jpeg", ["Media", "Images"]),
  ("png", ["Media", "Images"]),
  ("gif", ["Media", "Images"]),
  ("svg", ["Media", "Images"]),
  ("webp", ["Media", "Images"]),
  ("sh", ["Scripts", "Shell"]),
  ("bash", ["Scripts", "Shell"]),
  ("bat", ["Scripts", "Batch"]),
  ("ps1", ["Scripts", "PowerShell"]),
  ("sql", ["Database", "SQL"])]

/-- Dictionary lookup in a mapping table (keys are unique). -/
def mappingsFind (m : List (String × List String)) (ext : String) : Option (List String) :=
  (m.find? (fun kv => kv.1 = ext)).map (fun kv => kv.2)

/-! ## Run configuration, per-file records and statistics -/

/-- The constructor arguments of `FileOrganizer` that a run reads. -/
structure Config where
  sourceDir : List String
  targetDir : List String
  mappings : List (String × List String)
  projectMode : Bool
  excludeDirs : List String
  excludeFiles : List String
  dryRun : Bool
deriving DecidableEq, Repr

/-- Default `exclude_dirs` of `FileOrganizer.__init__`. -/
def defaultExcludeDirs : List String :=
  [".git", ".vscode", "node_modules", "venv", "env", "__pycache__"]

/-- Default `exclude_files` of `FileOrganizer.__init__`. -/
def defaultExcludeFiles : List String :=
  ["file_organizer.py", "file_organizer_config.json"]

/-- A file as the organizer observes it: its absolute path and the
outcomes of the reads the organizer may perform on it.  `line1 = none`
and `head4k = none` model a `UnicodeDecodeError` on the respective
text read, `readOk = false` an `IOError`/`OSError` while hashing, and
`moveFails = true` a `shutil.move` that raises. -/
structure FileRec where
  path : List String
  size : Nat
  line1 : Option String
  head4k : Option String
  bytes : List Nat
  readOk : Bool
  moveFails : Bool
deriving DecidableEq, Repr

/-- The `self.stats` dictionary (the always-present counters plus the
`duplicate_files` counter, which Python materializes lazily at its
first increment and which we keep at 0 until then). -/
structure Stats where
  totalFiles : Nat
  organizedFiles : Nat
  skippedFiles : Nat
  duplicateFiles : Nat
  unknownExtensions : List String
deriving DecidableEq, Repr

/-- The stats dictionary as initialized in `__init__`. -/
def initStats : Stats := ⟨0, 0, 0, 0, []⟩

/-- Python `set.add` on the unknown-extension set (kept as a duplicate-free list). -/
def addUnknown (u : List String) (e : String) : List String :=
  if u.contains e then u else e :: u

/-! ## `should_exclude` -/

/-- `FileOrganizer.should_exclude`: the basename is an excluded file
name, or some component of the full path equals an excluded directory
name (`excluded_dir in path.split(os.sep)`). -/
def should_exclude (cfg : Config) (p : List String) : Bool :=
  cfg.excludeFiles.contains (basename p) || cfg.excludeDirs.any (fun d => p.contains d)

/-! ## `get_target_path` (the extension mapper) -/

/-- `FileOrganizer.get_target_path`: returns the computed destination
(if any) together with the updated unknown-extension set; a file with
no extension yields `none` without touching the set, an unmapped
extension records itself and yields `none`. -/
def get_target_path (cfg : Config) (unknown : List String) (p : List String) :
    Option (List String) × List String :=
  let ext := extNoDot (basename p)
  if ext = "" then (none, unknown)
  else
    match mappingsFind cfg.mappings ext with
    | some category =>
      let sub :=
        if cfg.projectMode then
          cfg.targetDir ++ relpath (dirname p) cfg.sourceDir ++ category
        else cfg.targetDir ++ category
      (some (sub ++ [basename p]), unknown)
    | none => (none, addUnknown unknown ext)

/-! ## Config-file classification -/

/-- `FileOrganizer.is_config_file`: the eight case-insensitive patterns
of `config_patterns`, compiled to decidable tests on the lowercased
name (all pattern literals are lowercase and the classes involved are
case-stable). -/
def is_config_file (name : String) : Bool :=
  let l := lowerL name
  (endsWithL ".config" l || trailingWordAfter ".config." l) ||
  endsWithL ".conf" l ||
  endsWithL ".ini" l ||
  (endsWithL ".env" l || trailingWordAfter ".env." l) ||
  trailingWordAfter "config." l ||
  (endsWithL ".yaml" l || endsWithL ".yml" l) ||
  endsWithL ".toml" l ||
  trailingWordAfter "settings." l

/-- `FileOrganizer.get_config_type`: the if/elif chain over the
case-insensitive subtype patterns. -/
def get_config_type (name : String) : String :=
  let l := lowerL name
  if endsWithL ".yaml" l || endsWithL ".yml" l then "YAML"
  else if endsWithL ".toml" l then "TOML"
  else if endsWithL ".json" l then "JSON"
  else if containsL ".env".toList l then "Environment"
  else if endsWithL ".ini" l then "INI"
  else "General"

/-! ## Content signature matchers

Hand-compiled decidable versions of the `re.search` patterns of
`detect_file_type_from_content`, with existential-match semantics
(regex search succeeds iff a match starts at some position). -/

/-- Consume an exact literal prefix, returning the rest. -/
def matchLit : List Char → List Char → Option (List Char)
  | [], cs => some cs
  | _ :: _, [] => none
  | p :: ps, c :: cs => if p = c then matchLit ps cs else none

/-- Try a matcher (which also sees the previous character, for `\b`)
at every position of the list. -/
def searchAux (m : Option Char → List Char → Bool) : Option Char → List Char → Bool
  | prev, [] => m prev []
  | prev, c :: cs => m prev (c :: cs) || searchAux m (some c) cs

/-- Regex search: does the matcher succeed at some position? -/
def searchL (m : Option Char → List Char → Bool) (cs : List Char) : Bool :=
  searchAux m none cs

/-- `\b` before a literal starting with a word character: the previous
character, if any, is not a word character. -/
def boundaryBefore (prev : Option Char) : Bool :=
  match prev with
  | none => true
  | some c => !isWordChar c

/-- `lit\b` for a literal ending in a word character: consume `lit`, then
require end of input or a non-word character. -/
def litThenBoundary (lit : String) (cs : List Char) : Bool :=
  match matchLit lit.toList cs with
  | some rest => match rest with | [] => true | c :: _ => !isWordChar c
  | none => false

/-- `lit1\s+lit2`: the literal, at least one whitespace, the second
literal (equivalently: all intervening whitespace then the literal,
since `lit2` starts with a non-space). -/
def litSpacesLit (lit1 lit2 : String) (cs : List Char) : Bool :=
  match matchLit lit1.toList cs with
  | some rest =>
    match rest with
    | c :: rest2 => isPySpace c && (matchLit lit2.toList (rest2.dropWhile isPySpace)).isSome
    | [] => false
  | none => false

/-- Scan for `\bword\b` within a `.*` region: positions may be reached
only by consuming non-newline characters (`.` does not match `\n`). -/
def scanNoNLWordB (word : String) : Option Char → List Char → Bool
  | prev, cs =>
    (boundaryBefore prev && litThenBoundary word cs) ||
    match cs with
    | [] => false
    | c :: cs2 => c ≠ '\n' && scanNoNLWordB word (some c) cs2

/-- Scanning inside the `\s+` block of `\s+.*\bword\b`: try the word at
each position; a whitespace character extends the block, a
non-whitespace character switches to the newline-free `.*` region. -/
def spacesScanWordB (word : String) (prev : Char) : List Char → Bool
  | [] => boundaryBefore (some prev) && litThenBoundary word []
  | c :: cs =>
    (boundaryBefore (some prev) && litThenBoundary word (c :: cs)) ||
    (if isPySpace c then spacesScanWordB word c cs
     else c ≠ '\n' && scanNoNLWordB word (some c) cs)

/-- `\s+.*\bword\b` applied to what follows a literal: at least one
whitespace character (newlines allowed inside the whitespace block),
then a newline-free stretch, then `\bword\b`. -/
def spacesDotStarWordB (word : String) (rest : List Char) : Bool :=
  match rest with
  | [] => false
  | c :: cs => isPySpace c && spacesScanWordB word c cs

/-- `<!DOCTYPE\s+html>|<html\b` (IGNORECASE): run on the lowercased content. -/
def htmlSignature (content : List Char) : Bool :=
  let l := content.map Char.toLower
  searchL (fun _ suf =>
    litSpacesLit "<!doctype" "html>" suf || litThenBoundary "<html" suf) l

/-- `@import\s+url|@media\b|\bbody\s*\x7b` (case-sensitive). -/
def cssSignature (content : List Char) : Bool :=
  searchL (fun prev suf =>
    litSpacesLit "@import" "url" suf ||
    litThenBoundary "@media" suf ||
    (boundaryBefore prev &&
      (match matchLit "body".toList suf with
       | some rest => (rest.dropWhile isPySpace).head? = some '\x7b'
       | none => false))) content

/-- `import\s+.*\bfrom\b|\bexport\b.*\bclass\b|\bfunction\b` (case-sensitive). -/
def jsSignature (content : List Char) : Bool :=
  searchL (fun prev suf =>
    (match matchLit "import".toList suf with
     | some rest => spacesDotStarWordB "from" rest
     | none => false) ||
    (boundaryBefore prev &&
      (match matchLit "export".toList suf with
       | some rest =>
         match rest with
         | [] => false
         | c :: cs => !isWordChar c && scanNoNLWordB "class" (some 't') (c :: cs)
       | none => false)) ||
    (boundaryBefore prev && litThenBoundary "function" suf)) content

/-- `SELECT\s+.*\bFROM\b|CREATE\s+TABLE|INSERT\s+INTO` (IGNORECASE):
run on the lowercased content. -/
def sqlSignature (content : List Char) : Bool :=
  let l := content.map Char.toLower
  searchL (fun _ suf =>
    (match matchLit "select".toList suf with
     | some rest => spacesDotStarWordB "from" rest
     | none => false) ||
    litSpacesLit "create" "table" suf ||
    litSpacesLit "insert" "into" suf) l

/-- The signature pass of `detect_file_type_from_content` on the first
4096 characters: HTML, then CSS, then JavaScript (refined to React or
TypeScript by substring tests), then SQL. -/
def contentSignature (content : String) : Option (List String) :=
  let cs := content.toList
  if htmlSignature cs then some ["Web", "HTML"]
  else if cssSignature cs then some ["Web", "CSS"]
  else if jsSignature cs then
    if containsStr "React" content || containsStr "jsx" content then some ["Web", "React"]
    else if containsStr "interface " content || containsStr ": string" content then
      some ["Web", "TypeScript"]
    else some ["Web", "JavaScript"]
  else if sqlSignature cs then some ["Database", "SQL"]
  else none

/-! ## `detect_file_type_from_content` -/

/-- The script extensions eligible for the shebang pass (lowercased,
with dot, as produced by `os.path.splitext`). -/
def scriptExts : List String := [".py", ".js", ".sh", ".bash", ".pl", ".rb"]

/-- The shebang pass: the stripped first line of an eligible script,
when it starts with `#!`, is tested for interpreter substrings in the
source's if/elif order. -/
def shebangCategory (firstLine : String) : Option (List String) :=
  if containsStr "python" firstLine then some ["Python", "Scripts"]
  else if containsStr "node" firstLine then some ["Web", "JavaScript", "Scripts"]
  else if containsStr "bash" firstLine || containsStr "sh" firstLine
      || containsStr "zsh" firstLine then some ["Scripts", "Shell"]
  else if containsStr "ruby" firstLine then some ["Ruby", "Scripts"]
  else if containsStr "perl" firstLine then some ["Perl", "Scripts"]
  else none

/-- `FileOrganizer.detect_file_type_from_content`: the shebang pass for
script extensions (a decode failure falls through), then the signature
pass on the first 4 KiB (a decode failure yields `none`). -/
def detect_file_type_from_content (f : FileRec) : Option (List String) :=
  let ext := lowerStr (splitext_ext (basename f.path))
  let shebangRes : Option (List String) :=
    if scriptExts.contains ext then
      match f.line1 with
      | some l =>
        let firstLine := pyStrip l
        if "#!".toList.isPrefixOf firstLine.toList then shebangCategory firstLine else none
      | none => none
    else none
  match shebangRes with
  | some r => some r
  | none =>
    match f.head4k with
    | some content => contentSignature content
    | none => none

/-! ## `smart_categorize_file` and the classification precedence -/

/-- `FileOrganizer.smart_categorize_file`: config-file classification
first (no project-mode nesting), then content classification for files
under 500 KiB (with project-mode nesting). -/
def smart_categorize_file (cfg : Config) (f : FileRec) : Option (List String) :=
  let filename := basename f.path
  if is_config_file filename then
    some (cfg.targetDir ++ ["Config", get_config_type filename, filename])
  else if f.size < 500 * 1024 then
    match detect_file_type_from_content f with
    | some fileType =>
      let sub :=
        if cfg.projectMode then
          cfg.targetDir ++ relpath (dirname f.path) cfg.sourceDir ++ fileType
        else cfg.targetDir ++ fileType
      some (sub ++ [filename])
    | none => none
  else none

/-- The per-file classification precedence of `organize_files`: smart
categorization first, extension mapping as the fallback (which alone
may record an unknown extension). -/
def classify_target (cfg : Config) (unknown : List String) (f : FileRec) :
    Option (List String) × List String :=
  match smart_categorize_file cfg f with
  | some t => (some t, unknown)
  | none => get_target_path cfg unknown f.path

/-! ## Hashing and the duplicate scanner -/

/-- `FileOrganizer.get_file_hash`: the content digest of a file, or
`none` when reading raises.  The MD5 digest is modelled by the byte
content itself (a collision-free digest). -/
def get_file_hash (f : FileRec) : Option (List Nat) :=
  if f.readOk then some f.bytes else none

/-- `defaultdict(list)` append: extend the group of digest `h` with
`p`, creating the group at the end on first sight of `h`. -/
def addToGroups (gs : List (List Nat × List (List String))) (h : List Nat) (p : List String) :
    List (List Nat × List (List String)) :=
  match gs with
  | [] => [(h, [p])]
  | (k, ps) :: rest =>
    if k = h then (k, ps ++ [p]) :: rest else (k, ps) :: addToGroups rest h p

/-- The `duplicate_map` built by `find_duplicate_files`: every
non-excluded file that hashes successfully is appended to its digest's
group; a hash failure is logged and skips just that file. -/
def duplicate_map (cfg : Config) (files : List FileRec) :
    List (List Nat × List (List String)) :=
  files.foldl (fun gs f =>
    if should_exclude cfg f.path then gs
    else
      match get_file_hash f with
      | some h => addToGroups gs h f.path
      | none => gs) []

/-- `FileOrganizer.find_duplicate_files`: the duplicate map restricted
to groups with at least two members. -/
def find_duplicate_files (cfg : Config) (files : List FileRec) :
    List (List Nat × List (List String)) :=
  (duplicate_map cfg files).filter (fun g => g.2.length > 1)

/-- Dictionary membership/lookup in the duplicate index. -/
def dupLookup (dup : List (List Nat × List (List String))) (h : List Nat) :
    Option (List (List String)) :=
  (dup.find? (fun g => g.1 = h)).map (fun g => g.2)

/-! ## The organizing walk -/

/-- Filesystem side effects of the walk: a `makedirs(..., exist_ok=True)`
call (create-if-absent, parents included) and a `shutil.move` attempt. -/
inductive Effect where
  | mkdir (dir : List String)
  | move (src dst : List String)
deriving DecidableEq, Repr

/-- Is an effect a move attempt? -/
def Effect.isMove : Effect → Bool
  | .move _ _ => true
  | .mkdir _ => false

/-- The per-file body of the walk loop in `organize_files`.  Returns
the updated statistics and the effects performed, or `none` when the
uncaught `get_file_hash` call raises and aborts the run.  Paths in this
model are normalized, so the `os.path.normpath` comparison of the
same-source-and-destination rule is plain equality. -/
def stepFile (cfg : Config) (dup : List (List Nat × List (List String)))
    (s : Stats) (f : FileRec) : Option (Stats × List Effect) :=
  let s1 : Stats := { s with totalFiles := s.totalFiles + 1 }
  if should_exclude cfg f.path then
    some ({ s1 with skippedFiles := s1.skippedFiles + 1 }, [])
  else
    match (if cfg.dryRun then some none else (get_file_hash f).map some :
        Option (Option (List Nat))) with
    | none => none
    | some fileHash =>
      let dupHit : Bool :=
        match fileHash with
        | some h =>
          match dupLookup dup h with
          | some g => decide (g.length > 1)
          | none => false
        | none => false
      let s2 : Stats :=
        if dupHit then { s1 with duplicateFiles := s1.duplicateFiles + 1 } else s1
      let tu := classify_target cfg s2.unknownExtensions f
      let s3 : Stats := { s2 with unknownExtensions := tu.2 }
      match tu.1 with
      | none => some ({ s3 with skippedFiles := s3.skippedFiles + 1 }, [])
      | some target =>
        if f.path = target then
          some ({ s3 with skippedFiles := s3.skippedFiles + 1 }, [])
        else
          if cfg.dryRun then
            some ({ s3 with organizedFiles := s3.organizedFiles + 1 },
              [Effect.mkdir (dirname target)])
          else if f.moveFails then
            some ({ s3 with skippedFiles := s3.skippedFiles + 1 },
              [Effect.mkdir (dirname target), Effect.move f.path target])
          else
            some ({ s3 with organizedFiles := s3.organizedFiles + 1 },
              [Effect.mkdir (dirname target), Effect.move f.path target])

/-- The walk over the visited files, threading statistics and
accumulating effects; aborts (`none`) when a step aborts. -/
def organizeWalk (cfg : Config) (dup : List (List Nat × List (List String))) :
    List FileRec → Stats → Option (Stats × List Effect)
  | [], s => some (s, [])
  | f :: fs, s =>
    match stepFile cfg dup s f with
    | none => none
    | some (s2, effs) =>
      match organizeWalk cfg dup fs s2 with
      | none => none
      | some (s3, rest) => some (s3, effs ++ rest)

/-- `FileOrganizer.organize_files` on the list of files the walk
visits: the duplicate index is built up front unless this is a dry run,
then the walk processes every file. -/
def organize_files (cfg : Config) (files : List FileRec) : Option (Stats × List Effect) :=
  let dup := if cfg.dryRun then [] else find_duplicate_files cfg files
  organizeWalk cfg dup files initStats

/-! ## `generate_report` -/

/-- The report record written by `generate_report`. -/
structure Report where
  sourceDirectory : List String
  targetDirectory : List String
  projectMode : Bool
  statistics : Stats
deriving DecidableEq, Repr

/-- `FileOrganizer.generate_report`: in dry-run mode no file is
written; otherwise the report is written to target root / report file
name. -/
def generate_report (cfg : Config) (s : Stats) (reportFile : String) :
    Option (List String × Report) :=
  if cfg.dryRun then none
  else some (cfg.targetDir ++ [reportFile],
    ⟨cfg.sourceDir, cfg.targetDir, cfg.projectMode, s⟩)

/-! ## Specification-side definitions

Definitions written from the specification's words, used on the
specification side of refinement-style claims. -/

/-- The config-subtype rules in the precedence order the specification
states: `.ya?ml` → YAML, `.toml` → TOML, `.json` → JSON, contains
`.env` → Environment, `.ini` → INI. -/
def configTypeRules : List ((List Char → Bool) × String) :=
  [(fun l => endsWithL ".yaml" l || endsWithL ".yml" l, "YAML"),
   (fun l => endsWithL ".toml" l, "TOML"),
   (fun l => endsWithL ".json" l, "JSON"),
   (fun l => containsL ".env".toList l, "Environment"),
   (fun l => endsWithL ".ini" l, "INI")]

/-- First structural match over `configTypeRules`, defaulting to
`General`, as the specification describes `get_config_type`. -/
def configTypeSpec (name : String) : String :=
  ((configTypeRules.find? (fun r => r.1 (lowerL name))).map (fun r => r.2)).getD "General"

/-- The shebang interpreter rules in the priority order the
specification states; each rule fires when any of its substrings occurs
in the first line. -/
def shebangRules : List (List String × List String) :=
  [(["python"], ["Python", "Scripts"]),
   (["node"], ["Web", "JavaScript", "Scripts"]),
   (["bash", "sh", "zsh"], ["Scripts", "Shell"]),
   (["ruby"], ["Ruby", "Scripts"]),
   (["perl"], ["Perl", "Scripts"])]

/-- First matching interpreter rule for a shebang line, as the
specification describes the shebang pass. -/
def shebangFirstMatch (line : String) : Option (List String) :=
  (shebangRules.find? (fun r => r.1.any (fun s => containsStr s line))).map (fun r => r.2)

/-! ## Derived notions used in theorem statements -/

/-- Whether the non-dry-run walk body bumps the duplicate counter for
this file: its hash succeeds and lies in a duplicate group of size
above one. -/
def stepDupHit (dup : List (List Nat × List (List String))) (f : FileRec) : Bool :=
  match get_file_hash f with
  | some h =>
    match dupLookup dup h with
    | some g => decide (g.length > 1)
    | none => false
  | none => false

/-- The duplicate-counter increment the walk body applies for a file:
nothing in a dry run (the hash is not computed), otherwise one exactly
on a duplicate-index hit. -/
def dupBump (cfg : Config) (dup : List (List Nat × List (List String))) (f : FileRec) : Nat :=
  if cfg.dryRun then 0 else if stepDupHit dup f then 1 else 0

/-- The canonical duplicate group of a digest: the paths of the
non-excluded files whose hash computes to that digest, in walk order. -/
def dupGroupOf (cfg : Config) (files : List FileRec) (h : List Nat) : List (List String) :=
  ((files.filter (fun f =>
    !should_exclude cfg f.path && decide (get_file_hash f = some h))).map FileRec.path)

/-! ## Concrete fixtures for witnesses and counterexamples -/

/-- A standard-mode non-dry-run configuration rooted at `r`. -/
def cfgStd : Config :=
  ⟨["r"], ["r"], DEFAULT_MAPPINGS, false, defaultExcludeDirs, defaultExcludeFiles, false⟩

/-- A project-mode non-dry-run configuration rooted at `r`. -/
def cfgProj : Config :=
  ⟨["r"], ["r"], DEFAULT_MAPPINGS, true, defaultExcludeDirs, defaultExcludeFiles, false⟩

/-- The dry-run variant of `cfgStd`. -/
def cfgDry : Config :=
  ⟨["r"], ["r"], DEFAULT_MAPPINGS, false, defaultExcludeDirs, defaultExcludeFiles, true⟩

/-- A project-mode configuration with a separate target root `t`. -/
def cfgProjT : Config :=
  ⟨["r"], ["t"], DEFAULT_MAPPINGS, true, defaultExcludeDirs, defaultExcludeFiles, false⟩

/-- A configuration whose absolute source root contains the excluded
component `env`. -/
def cfgEnvRoot : Config :=
  ⟨["home", "env", "proj"], ["home", "env", "proj"], DEFAULT_MAPPINGS, false,
    defaultExcludeDirs, defaultExcludeFiles, false⟩

/-- A Python file `a.py` at the source root. -/
def fPy : FileRec := ⟨["r", "a.py"], 5, some "x = 1", some "x = 1", [3], true, false⟩

/-- `src/utils.py` as the first run sees it. -/
def fUtilsSrc : FileRec :=
  ⟨["r", "src", "utils.py"], 5, some "x = 1", some "x = 1", [7], true, false⟩

/-- `src/Python/utils.py`: the same file at the destination the first
project-mode run moved it to. -/
def fUtilsMoved : FileRec :=
  ⟨["r", "src", "Python", "utils.py"], 5, some "x = 1", some "x = 1", [7], true, false⟩

/-- A config-named file `src/app.config`. -/
def fConfig : FileRec :=
  ⟨["r", "src", "app.config"], 30, some "DEBUG=true", some "DEBUG=true", [11], true, false⟩

/-- `src/app.js`, not claimed by config or content classification. -/
def fAppJs : FileRec :=
  ⟨["r", "src", "app.js"], 15, some "console.log(1)", some "console.log(1)", [12], true, false⟩

/-- `run.sh` whose first line is a Python shebang. -/
def fRunSh : FileRec :=
  ⟨["r", "run.sh"], 60, some "#!/usr/bin/env python3",
    some "#!/usr/bin/env python3", [13], true, false⟩

/-- A file whose move fails (`shutil.move` raises). -/
def fMoveFail : FileRec := ⟨["r", "b.py"], 5, some "y = 2", some "y = 2", [4], true, true⟩

/-- First of two byte-identical text files. -/
def fDupOne : FileRec := ⟨["r", "one.txt"], 4, some "dup", some "dup", [9, 9], true, false⟩

/-- Second of two byte-identical text files. -/
def fDupTwo : FileRec := ⟨["r", "two.txt"], 4, some "dup", some "dup", [9, 9], true, false⟩

/-- A file with unique content. -/
def fUnique : FileRec := ⟨["r", "uni.txt"], 4, some "u", some "u", [5], true, false⟩

/-- A file under the `env`-containing source root of `cfgEnvRoot`. -/
def fUnderEnv : FileRec :=
  ⟨["home", "env", "proj", "a.py"], 5, some "x = 1", some "x = 1", [3], true, false⟩

/-- The statistics after a standard-mode run over the single file
`a.py`: one file seen, one organized. -/
def statsOnePy : Stats := ⟨1, 1, 0, 0, []⟩

/-- The effects of that run: create `r/Python`, move `a.py` into it. -/
def effsOnePy : List Effect :=
  [Effect.mkdir ["r", "Python"], Effect.move ["r", "a.py"] ["r", "Python", "a.py"]]

/-! ## Theorems settling the claims -/

/-- C7: for every filename, `get_config_type` decides the subtype by
the first match in the fixed order `.yaml`/`.yml` → YAML, `.toml` →
TOML, `.json` → JSON, contains `.env` → Environment, `.ini` → INI,
General otherwise; a name matching several patterns (such as one
containing `.env` and ending in `.ini`) receives the earlier subtype. -/
theorem get_config_type_first_match :
    (∀ name : String, get_config_type name = configTypeSpec name) ∧
    get_config_type "app.env.ini" = "Environment" := by
  refine ⟨fun name => ?_, by decide⟩
  unfold get_config_type configTypeSpec configTypeRules
  simp only [List.find?]
  cases hyaml : endsWithL ".yaml" (lowerL name) <;>
  cases hyml : endsWithL ".yml" (lowerL name) <;>
  cases htoml : endsWithL ".toml" (lowerL name) <;>
  cases hjson : endsWithL ".json" (lowerL name) <;>
  cases henv : containsL ".env".toList (lowerL name) <;>
  cases hini : endsWithL ".ini" (lowerL name) <;>
  rfl

/-- C3: a file whose basename matches a config-file pattern is always
sent to target root / `Config` / subtype / basename — with no
project-mode relative nesting, whatever `projectMode` is — and this
result is what the whole per-file classification returns, so it
overrides both content classification and the extension mapper. -/
theorem config_files_go_to_config (cfg : Config) (u : List String) (f : FileRec)
    (h : is_config_file (basename f.path) = true) :
    classify_target cfg u f =
      (some (cfg.targetDir ++
        ["Config", get_config_type (basename f.path), basename f.path]), u) := by
  unfold classify_target smart_categorize_file
  simp [h]

/-- Witness for C3: `src/app.config` lands at
`t/Config/General/app.config` even in project mode. -/
theorem config_files_go_to_config_witness :
    classify_target cfgProjT [] fConfig =
      (some ["t", "Config", "General", "app.config"], []) := by
  have h := config_files_go_to_config cfgProjT [] fConfig (by decide)
  exact h.trans (by decide)

/-- C4: when smart categorization declines a file that has an
extension, the extension mapper decides: on a mapping hit the
destination is target root, then (in project mode) the parent's path
relative to the source root, then the category path, then the basename;
on a miss the extension joins the unknown set and no destination is
returned. -/
theorem extension_fallback_destination (cfg : Config) (u : List String) (f : FileRec)
    (hs : smart_categorize_file cfg f = none)
    (hext : extNoDot (basename f.path) ≠ "") :
    (∀ category, mappingsFind cfg.mappings (extNoDot (basename f.path)) = some category →
        classify_target cfg u f =
          (some ((if cfg.projectMode then
              cfg.targetDir ++ relpath (dirname f.path) cfg.sourceDir ++ category
            else cfg.targetDir ++ category) ++ [basename f.path]), u)) ∧
    (mappingsFind cfg.mappings (extNoDot (basename f.path)) = none →
        classify_target cfg u f = (none, addUnknown u (extNoDot (basename f.path)))) := by
  constructor
  · intro category hm
    unfold classify_target
    rw [hs]
    unfold get_target_path
    simp [hext, hm]
  · intro hm
    unfold classify_target
    rw [hs]
    unfold get_target_path
    simp [hext, hm]

/-- Witness for C4: in project mode `src/app.js` lands at
`t/src/Web/JavaScript/app.js`. -/
theorem extension_fallback_destination_witness :
    classify_target cfgProjT [] fAppJs =
      (some ["t", "src", "Web", "JavaScript", "app.js"], []) := by
  have h := (extension_fallback_destination cfgProjT [] fAppJs (by decide) (by decide)).1
    ["Web", "JavaScript"] (by decide)
  exact h.trans (by decide)

/-- The if/elif chain of the shebang pass agrees with the
specification's first-match rule list. -/
theorem shebangCategory_eq_spec (line : String) :
    shebangCategory line = shebangFirstMatch line := by
  unfold shebangCategory shebangFirstMatch shebangRules
  simp only [List.find?, List.any_cons, List.any_nil, Bool.or_false]
  cases hpy : containsStr "python" line <;>
  cases hnode : containsStr "node" line <;>
  cases hbash : containsStr "bash" line <;>
  cases hsh : containsStr "sh" line <;>
  cases hzsh : containsStr "zsh" line <;>
  cases hruby : containsStr "ruby" line <;>
  cases hperl : containsStr "perl" line <;>
  rfl

/-- C5: an eligible script (extension in the fixed set, under 500 KiB,
not config-named) whose stripped first line starts with `#!` and
contains at least one interpreter substring is categorized by the first
matching rule of the fixed priority python, node, bash/sh/zsh, ruby,
perl, and smart categorization places it under that category. -/
theorem shebang_priority_classification (cfg : Config) (f : FileRec) (l : String)
    (category : List String)
    (hext : scriptExts.contains (lowerStr (splitext_ext (basename f.path))) = true)
    (hsize : f.size < 500 * 1024)
    (hcfg : is_config_file (basename f.path) = false)
    (hline : f.line1 = some l)
    (hbang : "#!".toList.isPrefixOf (pyStrip l).toList = true)
    (hmatch : shebangFirstMatch (pyStrip l) = some category) :
    detect_file_type_from_content f = some category ∧
    smart_categorize_file cfg f =
      some ((if cfg.projectMode then
          cfg.targetDir ++ relpath (dirname f.path) cfg.sourceDir ++ category
        else cfg.targetDir ++ category) ++ [basename f.path]) := by
  have hdet : detect_file_type_from_content f = some category := by
    have hext2 : lowerStr (splitext_ext (basename f.path)) ∈ scriptExts := by
      simpa using hext
    have hbang2 : ['#', '!'] <+: (pyStrip l).data := by
      simpa using hbang
    unfold detect_file_type_from_content
    rw [hline]
    simp [hext2, hbang2, shebangCategory_eq_spec, hmatch]
  refine ⟨hdet, ?_⟩
  unfold smart_categorize_file
  simp [hcfg, hsize, hdet]

/-- Witness for C5: `run.sh` beginning `#!/usr/bin/env python3` is
categorized `Python/Scripts`, not `Scripts/Shell`. -/
theorem shebang_priority_classification_witness :
    detect_file_type_from_content fRunSh = some ["Python", "Scripts"] ∧
    smart_categorize_file cfgStd fRunSh = some ["r", "Python", "Scripts", "run.sh"] := by
  have h := shebang_priority_classification cfgStd fRunSh "#!/usr/bin/env python3"
    ["Python", "Scripts"] (by decide) (by decide) (by decide) (by decide) (by decide) (by decide)
  exact ⟨h.1, h.2.trans (by decide)⟩

/-- The basename of a path ending in `[n]` is `n`. -/
theorem basename_append_single (xs : List String) (n : String) : basename (xs ++ [n]) = n := by
  simp [basename]

/-- Every destination smart categorization produces ends in the file's
basename. -/
theorem smart_some_basename (cfg : Config) (f : FileRec) (t : List String)
    (hs : smart_categorize_file cfg f = some t) : basename t = basename f.path := by
  unfold smart_categorize_file at hs
  by_cases hc : is_config_file (basename f.path)
  · simp only [hc, if_true, Option.some.injEq] at hs
    subst hs
    rw [show cfg.targetDir ++ ["Config", get_config_type (basename f.path),
        basename f.path] = (cfg.targetDir ++ ["Config", get_config_type (basename f.path)])
        ++ [basename f.path] by simp]
    exact basename_append_single _ _
  · simp only [hc, Bool.false_eq_true, if_false] at hs
    by_cases hsz : f.size < 500 * 1024
    · simp only [hsz, if_true] at hs
      cases hd : detect_file_type_from_content f with
      | some ft =>
        rw [hd] at hs
        simp only [Option.some.injEq] at hs
        subst hs
        exact basename_append_single _ _
      | none => rw [hd] at hs; simp at hs
    · simp [hsz] at hs

/-- Every destination the extension mapper produces ends in the file's
basename. -/
theorem get_target_path_some_basename (cfg : Config) (u : List String) (p : List String)
    (t : List String) (h : (get_target_path cfg u p).1 = some t) :
    basename t = basename p := by
  unfold get_target_path at h
  by_cases he : extNoDot (basename p) = ""
  · simp [he] at h
  · cases hm : mappingsFind cfg.mappings (extNoDot (basename p)) with
    | some category =>
      simp only [he, if_false, hm] at h
      simp only [Option.some.injEq] at h
      subst h
      exact basename_append_single _ _
    | none => simp [he, hm] at h

/-- Every destination the classification produces ends in the file's
basename. -/
theorem classify_some_basename (cfg : Config) (u : List String) (f : FileRec)
    (d : List String) (h : (classify_target cfg u f).1 = some d) :
    basename d = basename f.path := by
  unfold classify_target at h
  cases hs : smart_categorize_file cfg f with
  | some t =>
    rw [hs] at h
    have ht : t = d := by simpa using h
    exact ht ▸ smart_some_basename cfg f t hs
  | none =>
    rw [hs] at h
    exact get_target_path_some_basename cfg u f.path d h

/-- Content detection reads the path only through the basename. -/
theorem detect_path_congr (f : FileRec) (q : List String)
    (h : basename q = basename f.path) :
    detect_file_type_from_content { f with path := q } = detect_file_type_from_content f := by
  cases f
  unfold detect_file_type_from_content
  dsimp only
  rw [h]

/-- Outside project mode, smart categorization reads the path only
through the basename. -/
theorem smart_path_congr (cfg : Config) (f : FileRec) (q : List String)
    (hpm : cfg.projectMode = false) (h : basename q = basename f.path) :
    smart_categorize_file cfg { f with path := q } = smart_categorize_file cfg f := by
  cases f
  unfold smart_categorize_file detect_file_type_from_content
  dsimp only
  rw [h, hpm]
  rfl

/-- Outside project mode, the extension mapper's destination reads the
path only through the basename. -/
theorem get_target_path_congr (cfg : Config) (u u2 : List String) (p q : List String)
    (hpm : cfg.projectMode = false) (h : basename q = basename p) :
    (get_target_path cfg u2 q).1 = (get_target_path cfg u p).1 := by
  unfold get_target_path
  dsimp only
  rw [h, hpm]
  by_cases he : extNoDot (basename p) = ""
  · simp [he]
  · cases hm : mappingsFind cfg.mappings (extNoDot (basename p)) <;> simp [he, hm]

/-- Outside project mode, the produced destination reads the path only
through the basename. -/
theorem classify_path_congr (cfg : Config) (u u2 : List String) (f : FileRec)
    (q : List String) (hpm : cfg.projectMode = false) (h : basename q = basename f.path) :
    (classify_target cfg u2 { f with path := q }).1 = (classify_target cfg u f).1 := by
  unfold classify_target
  rw [smart_path_congr cfg f q hpm h]
  cases hs : smart_categorize_file cfg f with
  | some t => rfl
  | none => exact get_target_path_congr cfg u u2 f.path q hpm h

/-- A successful classification leaves the unknown-extension set
untouched. -/
theorem classify_some_unknown (cfg : Config) (u : List String) (f : FileRec)
    (t : List String) (h : (classify_target cfg u f).1 = some t) :
    (classify_target cfg u f).2 = u := by
  unfold classify_target at h ⊢
  cases hs : smart_categorize_file cfg f with
  | some t2 => rfl
  | none =>
    rw [hs] at h
    dsimp only at h ⊢
    unfold get_target_path at h ⊢
    by_cases he : extNoDot (basename f.path) = ""
    · simp [he] at h
    · cases hm : mappingsFind cfg.mappings (extNoDot (basename f.path)) with
      | some category => simp [he, hm]
      | none => simp [he, hm] at h

/-- C2 counterexample: with source = target and project mode on, the
first run sends `src/utils.py` to `src/Python/utils.py`, but a second
run computes destination `src/Python/Python/utils.py` for the moved
file — different from its current path, so the second run moves it
again instead of skipping it. -/
theorem second_run_moves_again_project_mode :
    (classify_target cfgProj [] fUtilsSrc).1 = some ["r", "src", "Python", "utils.py"] ∧
    fUtilsMoved.path = ["r", "src", "Python", "utils.py"] ∧
    (classify_target cfgProj [] fUtilsMoved).1 =
      some ["r", "src", "Python", "Python", "utils.py"] ∧
    (classify_target cfgProj [] fUtilsMoved).1 ≠ some fUtilsMoved.path := by decide

/-- C2 (amended): in standard (non-project) mode a second run is
idempotent: a file relocated to the destination the classification
computed for it gets that same destination again, so the
same-source-and-destination rule skips it — the walk body counts it
skipped and performs no directory creation and no move. -/
theorem second_run_idempotent_standard_mode (cfg : Config)
    (hpm : cfg.projectMode = false) (u u2 : List String) (f : FileRec)
    (d : List String) (hc : (classify_target cfg u f).1 = some d) :
    (classify_target cfg u2 { f with path := d }).1 = some d ∧
    (∀ dup s, should_exclude cfg d = false →
      (cfg.dryRun = true ∨ f.readOk = true) →
      stepFile cfg dup s { f with path := d } =
        some ({ s with
          totalFiles := s.totalFiles + 1
          skippedFiles := s.skippedFiles + 1
          duplicateFiles := s.duplicateFiles + dupBump cfg dup f },
          [])) := by
  have hb : basename d = basename f.path := classify_some_basename cfg u f d hc
  have hcq : ∀ u3, (classify_target cfg u3 { f with path := d }).1 = some d :=
    fun u3 => (classify_path_congr cfg u u3 f d hpm hb).trans hc
  refine ⟨hcq u2, ?_⟩
  intro dup s hex hrd
  unfold stepFile
  simp only [hex, Bool.false_eq_true, if_false]
  cases hdry : cfg.dryRun with
  | true =>
    simp only [if_true]
    have hcl := hcq ({ s with totalFiles := s.totalFiles + 1 }).unknownExtensions
    have hun := classify_some_unknown cfg
      ({ s with totalFiles := s.totalFiles + 1 }).unknownExtensions
      { f with path := d } d hcl
    simp [hcl, hun, dupBump, hdry, Prod.ext_iff]
  | false =>
    have hro : f.readOk = true := by
      rcases hrd with hrd | hrd
      · rw [hdry] at hrd; exact absurd hrd (by simp)
      · exact hrd
    have hgf : get_file_hash { f with path := d } = some f.bytes := by
      unfold get_file_hash; simp [hro]
    have hgf2 : get_file_hash f = some f.bytes := by
      unfold get_file_hash; simp [hro]
    simp only [if_false, Bool.false_eq_true]
    rw [hgf]
    cases hhit : stepDupHit dup f with
    | true =>
      have hhit2 : (match dupLookup dup f.bytes with
          | some g => decide (g.length > 1)
          | none => false) = true := by
        unfold stepDupHit at hhit
        rw [hgf2] at hhit
        exact hhit
      have hcl := hcq ({ s with
        totalFiles := s.totalFiles + 1
        duplicateFiles := s.duplicateFiles + 1 }).unknownExtensions
      have hun := classify_some_unknown cfg
        ({ s with
          totalFiles := s.totalFiles + 1
          duplicateFiles := s.duplicateFiles + 1 }).unknownExtensions
        { f with path := d } d hcl
      simp [hhit2, hcl, hun, dupBump, hdry, hhit, Prod.ext_iff]
    | false =>
      have hhit2 : (match dupLookup dup f.bytes with
          | some g => decide (g.length > 1)
          | none => false) = false := by
        unfold stepDupHit at hhit
        rw [hgf2] at hhit
        exact hhit
      have hcl := hcq ({ s with totalFiles := s.totalFiles + 1 }).unknownExtensions
      have hun := classify_some_unknown cfg
        ({ s with totalFiles := s.totalFiles + 1 }).unknownExtensions
        { f with path := d } d hcl
      simp [hhit2, hcl, hun, dupBump, hdry, hhit, Prod.ext_iff]

/-- Witness for the amended C2: `utils.py`, moved by a standard-mode
run to `r/Python/utils.py`, is classified to its own current path on
the second run. -/
theorem second_run_idempotent_standard_mode_witness :
    (classify_target cfgStd [] { fUtilsSrc with path := ["r", "Python", "utils.py"] }).1 =
      some ["r", "Python", "utils.py"] :=
  (second_run_idempotent_standard_mode cfgStd (by decide) [] [] fUtilsSrc
    ["r", "Python", "utils.py"] (by decide)).1

/-- Accounting of one walk step: the total counter gains one, and
exactly one of the organized/skipped counters gains one. -/
theorem stepFile_counts (cfg : Config) (dup : List (List Nat × List (List String)))
    (s : Stats) (f : FileRec) (s2 : Stats) (e : List Effect)
    (h : stepFile cfg dup s f = some (s2, e)) :
    s2.totalFiles = s.totalFiles + 1 ∧
    s2.organizedFiles + s2.skippedFiles = s.organizedFiles + s.skippedFiles + 1 := by
  cases s
  simp only [stepFile] at h
  split at h
  · simp only [Option.some.injEq, Prod.mk.injEq] at h
    obtain ⟨h1, h2⟩ := h
    subst h1
    constructor <;> simp_arith
  · split at h
    · exact Option.noConfusion h
    · split at h
      · simp only [Option.some.injEq, Prod.mk.injEq] at h
        obtain ⟨h1, h2⟩ := h
        subst h1
        constructor <;> (try split) <;> simp_arith
      · split at h
        · simp only [Option.some.injEq, Prod.mk.injEq] at h
          obtain ⟨h1, h2⟩ := h
          subst h1
          constructor <;> (try split) <;> simp_arith
        · split at h
          · simp only [Option.some.injEq, Prod.mk.injEq] at h
            obtain ⟨h1, h2⟩ := h
            subst h1
            constructor <;> (try split) <;> simp_arith
          · split at h <;>
              (simp only [Option.some.injEq, Prod.mk.injEq] at h
               obtain ⟨h1, h2⟩ := h
               subst h1
               constructor <;> (try split) <;> simp_arith)

/-- C9: the walk maintains the invariant total = organized + skipped:
every fully processed file increments exactly one of the organized and
skipped counters, and the duplicate counter never disturbs the
balance. -/
theorem organize_counters_balanced (cfg : Config)
    (dup : List (List Nat × List (List String))) (files : List FileRec)
    (s : Stats) (r : Stats × List Effect)
    (hinv : s.totalFiles = s.organizedFiles + s.skippedFiles)
    (h : organizeWalk cfg dup files s = some r) :
    r.1.totalFiles = r.1.organizedFiles + r.1.skippedFiles := by
  induction files generalizing s r with
  | nil =>
    unfold organizeWalk at h
    obtain rfl : (s, ([] : List Effect)) = r := by simpa using h
    exact hinv
  | cons f fs ih =>
    unfold organizeWalk at h
    cases hstep : stepFile cfg dup s f with
    | none => rw [hstep] at h; simp at h
    | some q =>
      rw [hstep] at h
      obtain ⟨s2, effs⟩ := q
      dsimp only at h
      cases hrest : organizeWalk cfg dup fs s2 with
      | none => rw [hrest] at h; simp at h
      | some r2 =>
        rw [hrest] at h
        dsimp only at h
        obtain ⟨hc1, hc2⟩ := stepFile_counts cfg dup s f s2 effs hstep
        have hinv2 : s2.totalFiles = s2.organizedFiles + s2.skippedFiles := by omega
        have hr2 := ih s2 r2 hinv2 hrest
        obtain rfl : (r2.1, effs ++ r2.2) = r := by simpa using h
        exact hr2

/-- Witness for C9: the balance holds before and after the one-file
standard-mode run. -/
theorem organize_counters_balanced_witness :
    initStats.totalFiles = initStats.organizedFiles + initStats.skippedFiles ∧
    statsOnePy.totalFiles = statsOnePy.organizedFiles + statsOnePy.skippedFiles :=
  ⟨rfl, organize_counters_balanced cfgStd [] [fPy] initStats (statsOnePy, effsOnePy)
    rfl (by decide)⟩

/-- The walk body on an excluded file: counted in total and skipped,
no effects. -/
theorem stepFile_excluded (cfg : Config) (dup : List (List Nat × List (List String)))
    (s : Stats) (f : FileRec) (h : should_exclude cfg f.path = true) :
    stepFile cfg dup s f =
      some ({ s with
        totalFiles := s.totalFiles + 1
        skippedFiles := s.skippedFiles + 1 }, []) := by
  unfold stepFile
  simp [h]

/-- A walk all of whose files are excluded skips everything and
performs no effect. -/
theorem organizeWalk_all_excluded (cfg : Config)
    (dup : List (List Nat × List (List String))) (files : List FileRec) :
    ∀ s : Stats, (∀ f ∈ files, should_exclude cfg f.path = true) →
      organizeWalk cfg dup files s =
        some ({ s with
          totalFiles := s.totalFiles + files.length
          skippedFiles := s.skippedFiles + files.length }, []) := by
  induction files with
  | nil => intro s hall; simp [organizeWalk]
  | cons f fs ih =>
    intro s hall
    have hstep := stepFile_excluded cfg dup s f (hall f (by simp))
    simp only [organizeWalk]
    rw [hstep]
    dsimp only
    rw [ih _ (fun g hg => hall g (by simp [hg]))]
    cases s
    simp [Nat.add_comm, Nat.add_assoc, Nat.add_left_comm]

/-- C10: `should_exclude` matches excluded directory names against
every component of the absolute path, so when the absolute source root
itself contains an excluded component (the defaults include `env` and
`venv`), every path under the root is excluded and a run skips every
visited file, organizing nothing. -/
theorem excluded_source_root_skips_everything (cfg : Config) (d : String)
    (hd : d ∈ cfg.excludeDirs) (hroot : d ∈ cfg.sourceDir) :
    (∀ p : List String, cfg.sourceDir.isPrefixOf p = true → should_exclude cfg p = true) ∧
    (∀ dup files (s : Stats),
      (∀ f ∈ files, cfg.sourceDir.isPrefixOf f.path = true) →
      organizeWalk cfg dup files s =
        some ({ s with
          totalFiles := s.totalFiles + files.length
          skippedFiles := s.skippedFiles + files.length }, [])) := by
  have hexcl : ∀ p : List String, cfg.sourceDir.isPrefixOf p = true →
      should_exclude cfg p = true := by
    intro p hp
    have hpre : cfg.sourceDir <+: p := List.isPrefixOf_iff_prefix.mp hp
    have hmem : d ∈ p := hpre.sublist.subset hroot
    unfold should_exclude
    simp only [Bool.or_eq_true, List.any_eq_true]
    exact Or.inr ⟨d, hd, by simpa using hmem⟩
  exact ⟨hexcl, fun dup files s hall =>
    organizeWalk_all_excluded cfg dup files s (fun f hf => hexcl f.path (hall f hf))⟩

/-- Witness for C10: with the default excludes and a source root
`home/env/proj`, the single visited file is skipped. -/
theorem excluded_source_root_skips_everything_witness :
    organizeWalk cfgEnvRoot [] [fUnderEnv] initStats =
      some ((⟨1, 0, 1, 0, []⟩ : Stats), []) := by
  have hall : ∀ f ∈ [fUnderEnv], cfgEnvRoot.sourceDir.isPrefixOf f.path = true := by
    intro f hf
    simp only [List.mem_singleton] at hf
    subst hf
    decide
  have h := (excluded_source_root_skips_everything cfgEnvRoot "env"
    (by decide) (by decide)).2 [] [fUnderEnv] initStats hall
  exact h.trans (by decide)

/-- C8: when moving one file fails in a non-dry run, that file is
counted skipped, every other statistic is as it was before the move
(total was already incremented on visiting, and a duplicate-index hit
was already counted before the attempt), exactly one move is attempted
with no retry, and the walk continues with the remaining files. -/
theorem move_failure_counts_skipped (cfg : Config)
    (dup : List (List Nat × List (List String))) (s : Stats) (f : FileRec)
    (target : List String)
    (hdry : cfg.dryRun = false)
    (hex : should_exclude cfg f.path = false)
    (hro : f.readOk = true)
    (hcl : (classify_target cfg s.unknownExtensions f).1 = some target)
    (hne : f.path ≠ target)
    (hmf : f.moveFails = true) :
    stepFile cfg dup s f =
      some ({ s with
        totalFiles := s.totalFiles + 1
        skippedFiles := s.skippedFiles + 1
        duplicateFiles := s.duplicateFiles + dupBump cfg dup f },
        [Effect.mkdir (dirname target), Effect.move f.path target]) ∧
    (([Effect.mkdir (dirname target), Effect.move f.path target].filter
      Effect.isMove).length = 1) ∧
    (∀ rest, organizeWalk cfg dup (f :: rest) s =
      (organizeWalk cfg dup rest ({ s with
          totalFiles := s.totalFiles + 1
          skippedFiles := s.skippedFiles + 1
          duplicateFiles := s.duplicateFiles + dupBump cfg dup f })).map
        (fun q => (q.1, [Effect.mkdir (dirname target), Effect.move f.path target] ++ q.2))) := by
  have hgf : get_file_hash f = some f.bytes := by
    unfold get_file_hash; simp [hro]
  have hstep : stepFile cfg dup s f =
      some ({ s with
        totalFiles := s.totalFiles + 1
        skippedFiles := s.skippedFiles + 1
        duplicateFiles := s.duplicateFiles + dupBump cfg dup f },
        [Effect.mkdir (dirname target), Effect.move f.path target]) := by
    unfold stepFile
    simp only [hex, Bool.false_eq_true, if_false, hdry]
    rw [hgf]
    cases hhit : stepDupHit dup f with
    | true =>
      have hhit2 : (match dupLookup dup f.bytes with
          | some g => decide (g.length > 1)
          | none => false) = true := by
        unfold stepDupHit at hhit
        rw [hgf] at hhit
        exact hhit
      have hcl2 := hcl
      have hun := classify_some_unknown cfg s.unknownExtensions f target hcl
      cases s
      simp [hhit2, hcl2, hun, hne, hmf, dupBump, hdry, hhit, Prod.ext_iff]
    | false =>
      have hhit2 : (match dupLookup dup f.bytes with
          | some g => decide (g.length > 1)
          | none => false) = false := by
        unfold stepDupHit at hhit
        rw [hgf] at hhit
        exact hhit
      have hcl2 := hcl
      have hun := classify_some_unknown cfg s.unknownExtensions f target hcl
      cases s
      simp [hhit2, hcl2, hun, hne, hmf, dupBump, hdry, hhit, Prod.ext_iff]
  refine ⟨hstep, rfl, fun rest => ?_⟩
  simp only [organizeWalk]
  rw [hstep]
  dsimp only
  cases organizeWalk cfg dup rest ({ s with
      totalFiles := s.totalFiles + 1
      skippedFiles := s.skippedFiles + 1
      duplicateFiles := s.duplicateFiles + dupBump cfg dup f }) with
  | none => rfl
  | some r2 => rfl

/-- Witness for C8: the failing move of `b.py` is counted skipped with
one attempted move. -/
theorem move_failure_counts_skipped_witness :
    stepFile cfgStd [] initStats fMoveFail =
      some ((⟨1, 0, 1, 0, []⟩ : Stats),
        [Effect.mkdir ["r", "Python"], Effect.move ["r", "b.py"] ["r", "Python", "b.py"]]) := by
  have h := (move_failure_counts_skipped cfgStd [] initStats fMoveFail
    ["r", "Python", "b.py"] (by decide) (by decide) (by decide) (by decide)
    (by decide) (by decide)).1
  exact h.trans (by decide)

/-- Exclusion does not read the dry-run flag. -/
theorem should_exclude_dryRun_irrel (cfg : Config) (b : Bool) (p : List String) :
    should_exclude { cfg with dryRun := b } p = should_exclude cfg p := by
  cases cfg; rfl

/-- Classification does not read the dry-run flag. -/
theorem classify_target_dryRun_irrel (cfg : Config) (b : Bool) (u : List String)
    (f : FileRec) :
    classify_target { cfg with dryRun := b } u f = classify_target cfg u f := by
  cases cfg; rfl

/-- One dry-run step against one real step on the same file: both
succeed, total/organized/skipped counters and the unknown set evolve
identically (provided the real move succeeds), the dry step leaves the
duplicate counter alone, and the dry step emits no move. -/
theorem stepFile_dry_wet (cfg : Config) (dupW : List (List Nat × List (List String)))
    (sd sw : Stats) (f : FileRec)
    (hro : f.readOk = true) (hmf : f.moveFails = false)
    (h1 : sd.totalFiles = sw.totalFiles) (h2 : sd.organizedFiles = sw.organizedFiles)
    (h3 : sd.skippedFiles = sw.skippedFiles)
    (h4 : sd.unknownExtensions = sw.unknownExtensions) :
    ∃ sd2 ed sw2 ew,
      stepFile { cfg with dryRun := true } [] sd f = some (sd2, ed) ∧
      stepFile { cfg with dryRun := false } dupW sw f = some (sw2, ew) ∧
      sd2.totalFiles = sw2.totalFiles ∧ sd2.organizedFiles = sw2.organizedFiles ∧
      sd2.skippedFiles = sw2.skippedFiles ∧
      sd2.unknownExtensions = sw2.unknownExtensions ∧
      sd2.duplicateFiles = sd.duplicateFiles ∧ (∀ e ∈ ed, e.isMove = false) := by
  have hgf : get_file_hash f = some f.bytes := by unfold get_file_hash; simp [hro]
  obtain ⟨td, od, kd, dd, ud⟩ := sd
  obtain ⟨tw, ow, kw, dw, uw⟩ := sw
  dsimp only at h1 h2 h3 h4
  subst h1; subst h2; subst h3; subst h4
  cases hex : should_exclude cfg f.path with
  | true =>
    have hexd : should_exclude { cfg with dryRun := true } f.path = true :=
      (should_exclude_dryRun_irrel cfg true f.path).trans hex
    have hexw : should_exclude { cfg with dryRun := false } f.path = true :=
      (should_exclude_dryRun_irrel cfg false f.path).trans hex
    exact ⟨_, _, _, _, stepFile_excluded _ [] _ f hexd, stepFile_excluded _ dupW _ f hexw,
      rfl, rfl, rfl, rfl, rfl, by simp⟩
  | false =>
    cases hhit : (match dupLookup dupW f.bytes with
        | some g => decide (g.length > 1)
        | none => false) with
    | true =>
      cases hcl : (classify_target cfg ud f).1 with
      | none =>
        refine ⟨⟨td + 1, od, kd + 1, dd, (classify_target cfg ud f).2⟩, [],
          ⟨td + 1, od, kd + 1, dw + 1, (classify_target cfg ud f).2⟩, [],
          ?_, ?_, rfl, rfl, rfl, rfl, rfl, by simp⟩
        · unfold stepFile
          simp [should_exclude_dryRun_irrel, classify_target_dryRun_irrel, hex, hcl]
        · unfold stepFile
          simp [should_exclude_dryRun_irrel, classify_target_dryRun_irrel, hex, hgf,
            hhit, hcl]
      | some target =>
        by_cases hpt : f.path = target
        · subst hpt
          refine ⟨⟨td + 1, od, kd + 1, dd, (classify_target cfg ud f).2⟩, [],
            ⟨td + 1, od, kd + 1, dw + 1, (classify_target cfg ud f).2⟩, [],
            ?_, ?_, rfl, rfl, rfl, rfl, rfl, by simp⟩
          · unfold stepFile
            simp [should_exclude_dryRun_irrel, classify_target_dryRun_irrel, hex, hcl]
          · unfold stepFile
            simp [should_exclude_dryRun_irrel, classify_target_dryRun_irrel, hex, hgf,
              hhit, hcl]
        · refine ⟨⟨td + 1, od + 1, kd, dd, (classify_target cfg ud f).2⟩,
            [Effect.mkdir (dirname target)],
            ⟨td + 1, od + 1, kd, dw + 1, (classify_target cfg ud f).2⟩,
            [Effect.mkdir (dirname target), Effect.move f.path target],
            ?_, ?_, rfl, rfl, rfl, rfl, rfl, by simp [Effect.isMove]⟩
          · unfold stepFile
            simp [should_exclude_dryRun_irrel, classify_target_dryRun_irrel, hex, hcl, hpt]
          · unfold stepFile
            simp [should_exclude_dryRun_irrel, classify_target_dryRun_irrel, hex, hgf,
              hhit, hcl, hpt, hmf]
    | false =>
      cases hcl : (classify_target cfg ud f).1 with
      | none =>
        refine ⟨⟨td + 1, od, kd + 1, dd, (classify_target cfg ud f).2⟩, [],
          ⟨td + 1, od, kd + 1, dw, (classify_target cfg ud f).2⟩, [],
          ?_, ?_, rfl, rfl, rfl, rfl, rfl, by simp⟩
        · unfold stepFile
          simp [should_exclude_dryRun_irrel, classify_target_dryRun_irrel, hex, hcl]
        · unfold stepFile
          simp [should_exclude_dryRun_irrel, classify_target_dryRun_irrel, hex, hgf,
            hhit, hcl]
      | some target =>
        by_cases hpt : f.path = target
        · subst hpt
          refine ⟨⟨td + 1, od, kd + 1, dd, (classify_target cfg ud f).2⟩, [],
            ⟨td + 1, od, kd + 1, dw, (classify_target cfg ud f).2⟩, [],
            ?_, ?_, rfl, rfl, rfl, rfl, rfl, by simp⟩
          · unfold stepFile
            simp [should_exclude_dryRun_irrel, classify_target_dryRun_irrel, hex, hcl]
          · unfold stepFile
            simp [should_exclude_dryRun_irrel, classify_target_dryRun_irrel, hex, hgf,
              hhit, hcl]
        · refine ⟨⟨td + 1, od + 1, kd, dd, (classify_target cfg ud f).2⟩,
            [Effect.mkdir (dirname target)],
            ⟨td + 1, od + 1, kd, dw, (classify_target cfg ud f).2⟩,
            [Effect.mkdir (dirname target), Effect.move f.path target],
            ?_, ?_, rfl, rfl, rfl, rfl, rfl, by simp [Effect.isMove]⟩
          · unfold stepFile
            simp [should_exclude_dryRun_irrel, classify_target_dryRun_irrel, hex, hcl, hpt]
          · unfold stepFile
            simp [should_exclude_dryRun_irrel, classify_target_dryRun_irrel, hex, hgf,
              hhit, hcl, hpt, hmf]

/-- The dry-run walk against the real walk over the same visited
files: identical total/organized/skipped/unknown statistics, an
untouched duplicate counter on the dry side, and no move effects on
the dry side. -/
theorem organizeWalk_dry_wet (cfg : Config) (dupW : List (List Nat × List (List String)))
    (files : List FileRec) :
    ∀ sd sw : Stats,
      (∀ f ∈ files, f.readOk = true ∧ f.moveFails = false) →
      sd.totalFiles = sw.totalFiles → sd.organizedFiles = sw.organizedFiles →
      sd.skippedFiles = sw.skippedFiles → sd.unknownExtensions = sw.unknownExtensions →
      ∃ sd2 ed sw2 ew,
        organizeWalk { cfg with dryRun := true } [] files sd = some (sd2, ed) ∧
        organizeWalk { cfg with dryRun := false } dupW files sw = some (sw2, ew) ∧
        sd2.totalFiles = sw2.totalFiles ∧ sd2.organizedFiles = sw2.organizedFiles ∧
        sd2.skippedFiles = sw2.skippedFiles ∧
        sd2.unknownExtensions = sw2.unknownExtensions ∧
        sd2.duplicateFiles = sd.duplicateFiles ∧ (∀ e ∈ ed, e.isMove = false) := by
  induction files with
  | nil =>
    intro sd sw hok h1 h2 h3 h4
    exact ⟨sd, [], sw, [], rfl, rfl, h1, h2, h3, h4, rfl, by simp⟩
  | cons f fs ih =>
    intro sd sw hok h1 h2 h3 h4
    obtain ⟨sd2, ed, sw2, ew, hde, hwe, g1, g2, g3, g4, g5, g6⟩ :=
      stepFile_dry_wet cfg dupW sd sw f (hok f (by simp)).1 (hok f (by simp)).2 h1 h2 h3 h4
    obtain ⟨sd3, ed2, sw3, ew2, hde2, hwe2, k1, k2, k3, k4, k5, k6⟩ :=
      ih sd2 sw2 (fun g hg => hok g (by simp [hg])) g1 g2 g3 g4
    refine ⟨sd3, ed ++ ed2, sw3, ew ++ ew2, ?_, ?_, k1, k2, k3, k4, k5.trans g5, ?_⟩
    · simp only [organizeWalk]
      rw [hde]
      dsimp only
      rw [hde2]
    · simp only [organizeWalk]
      rw [hwe]
      dsimp only
      rw [hwe2]
    · intro e he
      rcases List.mem_append.mp he with he | he
      · exact g6 e he
      · exact k6 e he

/-- C1 counterexample: the claim fails on the code in two ways.  The
dry run of a one-file tree performs the `makedirs` call — the
destination directory is created even in dry-run mode, because the
call sits before the dry-run test — and the duplicate counter, 2 in a
real run over two identical files, stays 0 in the dry run because the
duplicate scan and per-file hashing are skipped entirely. -/
theorem dry_run_still_creates_directories :
    organize_files cfgDry [fPy] =
      some ((⟨1, 1, 0, 0, []⟩ : Stats), [Effect.mkdir ["r", "Python"]]) ∧
    (organize_files cfgStd [fDupOne, fDupTwo]).map (fun r => r.1.duplicateFiles) =
      some 2 ∧
    (organize_files cfgDry [fDupOne, fDupTwo]).map (fun r => r.1.duplicateFiles) =
      some 0 := by
  decide

/-- C1 (amended): a dry run never moves a file and never writes a
report, and updates the total/organized/skipped counters and the
unknown-extension set exactly as a failure-free real run would; but it
still performs the destination `makedirs` calls, and its duplicate
counter stays 0 because the duplicate scan is skipped. -/
theorem dry_run_no_moves_same_stats (cfg : Config) (files : List FileRec)
    (reportFile : String)
    (hok : ∀ f ∈ files, f.readOk = true ∧ f.moveFails = false) :
    ∃ sd ed sw ew,
      organize_files { cfg with dryRun := true } files = some (sd, ed) ∧
      organize_files { cfg with dryRun := false } files = some (sw, ew) ∧
      sd.totalFiles = sw.totalFiles ∧ sd.organizedFiles = sw.organizedFiles ∧
      sd.skippedFiles = sw.skippedFiles ∧ sd.unknownExtensions = sw.unknownExtensions ∧
      sd.duplicateFiles = 0 ∧
      (∀ e ∈ ed, e.isMove = false) ∧
      generate_report { cfg with dryRun := true } sd reportFile = none := by
  obtain ⟨sd, ed, sw, ew, hd, hw, g1, g2, g3, g4, g5, g6⟩ :=
    organizeWalk_dry_wet cfg (find_duplicate_files { cfg with dryRun := false } files)
      files initStats initStats hok rfl rfl rfl rfl
  refine ⟨sd, ed, sw, ew, ?_, ?_, g1, g2, g3, g4, by simpa using g5, g6,
    by unfold generate_report; simp⟩
  · unfold organize_files
    simpa using hd
  · unfold organize_files
    simpa using hw

/-- Witness for the amended C1: the dry run over the one-file tree
succeeds. -/
theorem dry_run_no_moves_same_stats_witness :
    (organize_files { cfgStd with dryRun := true } [fPy]).isSome = true := by
  obtain ⟨sd, ed, sw, ew, hd, -⟩ :=
    dry_run_no_moves_same_stats cfgStd [fPy] "organization_report.json"
      (by intro f hf; simp only [List.mem_singleton] at hf; subst hf; exact ⟨rfl, rfl⟩)
  rw [hd]
  rfl

/-- Hash success characterized. -/
theorem get_file_hash_eq_some (f : FileRec) (h : List Nat) :
    get_file_hash f = some h ↔ (f.readOk = true ∧ f.bytes = h) := by
  unfold get_file_hash
  cases hro : f.readOk <;> simp

/-- Lookup at the head key. -/
theorem dupLookup_cons_self (k : List Nat) (ps : List (List String))
    (rest : List (List Nat × List (List String))) :
    dupLookup ((k, ps) :: rest) k = some ps := by
  simp [dupLookup, List.find?]

/-- Lookup skips a different head key. -/
theorem dupLookup_cons_ne (k h : List Nat) (ps : List (List String))
    (rest : List (List Nat × List (List String))) (hk : k ≠ h) :
    dupLookup ((k, ps) :: rest) h = dupLookup rest h := by
  simp [dupLookup, List.find?, hk]

/-- `addToGroups` at the head key extends the head group. -/
theorem addToGroups_cons_self (k : List Nat) (ps : List (List String))
    (rest : List (List Nat × List (List String))) (p : List String) :
    addToGroups ((k, ps) :: rest) k p = (k, ps ++ [p]) :: rest := by
  simp [addToGroups]

/-- `addToGroups` at a different head key recurses past the head. -/
theorem addToGroups_cons_ne (k h : List Nat) (ps : List (List String))
    (rest : List (List Nat × List (List String))) (p : List String) (hk : k ≠ h) :
    addToGroups ((k, ps) :: rest) h p = (k, ps) :: addToGroups rest h p := by
  simp [addToGroups, hk]

/-- Appending to a digest's group: lookup at that digest. -/
theorem dupLookup_addToGroups_self (gs : List (List Nat × List (List String)))
    (h : List Nat) (p : List String) :
    dupLookup (addToGroups gs h p) h = some ((dupLookup gs h).getD [] ++ [p]) := by
  induction gs with
  | nil => simp [addToGroups, dupLookup, List.find?]
  | cons kv rest ih =>
    obtain ⟨k, ps⟩ := kv
    by_cases hk : k = h
    · subst hk
      simp [addToGroups, dupLookup, List.find?]
    · rw [show addToGroups ((k, ps) :: rest) h p = (k, ps) :: addToGroups rest h p from by
        simp [addToGroups, hk]]
      rw [dupLookup_cons_ne k h ps _ hk, dupLookup_cons_ne k h ps rest hk]
      exact ih

/-- Appending to a digest's group: lookup at any other digest. -/
theorem dupLookup_addToGroups_ne (gs : List (List Nat × List (List String)))
    (h h2 : List Nat) (p : List String) (hne : h2 ≠ h) :
    dupLookup (addToGroups gs h p) h2 = dupLookup gs h2 := by
  induction gs with
  | nil =>
    simp only [addToGroups]
    rw [dupLookup_cons_ne h h2 [p] [] (fun e => hne e.symm)]
  | cons kv rest ih =>
    obtain ⟨k, ps⟩ := kv
    by_cases hk : k = h
    · subst hk
      rw [addToGroups_cons_self]
      by_cases hk2 : k = h2
      · subst hk2
        exact absurd rfl hne
      · rw [dupLookup_cons_ne k h2 (ps ++ [p]) rest hk2,
          dupLookup_cons_ne k h2 ps rest hk2]
    · rw [addToGroups_cons_ne k h ps rest p hk]
      by_cases hk2 : k = h2
      · subst hk2
        rw [dupLookup_cons_self, dupLookup_cons_self]
      · rw [dupLookup_cons_ne k h2 ps _ hk2, dupLookup_cons_ne k h2 ps rest hk2]
        exact ih

/-- A key in the extended map was there before or is the new digest. -/
theorem mem_keys_addToGroups (gs : List (List Nat × List (List String)))
    (h : List Nat) (p : List String) (x : List Nat)
    (hx : x ∈ (addToGroups gs h p).map Prod.fst) :
    x ∈ gs.map Prod.fst ∨ x = h := by
  induction gs with
  | nil => simpa [addToGroups] using hx
  | cons kv rest ih =>
    obtain ⟨k, ps⟩ := kv
    by_cases hk : k = h
    · subst hk
      rw [addToGroups_cons_self] at hx
      simp only [List.map_cons, List.mem_cons] at hx ⊢
      exact hx.elim (fun e => Or.inr e) (fun m => Or.inl (Or.inr m))
    · rw [addToGroups_cons_ne k h ps rest p hk] at hx
      simp only [List.map_cons, List.mem_cons] at hx ⊢
      rcases hx with hx | hx
      · exact Or.inl (Or.inl hx)
      · rcases ih hx with hx2 | hx2
        · exact Or.inl (Or.inr hx2)
        · exact Or.inr hx2

/-- `addToGroups` keeps the keys duplicate-free. -/
theorem keys_nodup_addToGroups (gs : List (List Nat × List (List String)))
    (h : List Nat) (p : List String) (hnd : (gs.map Prod.fst).Nodup) :
    ((addToGroups gs h p).map Prod.fst).Nodup := by
  induction gs with
  | nil => simp [addToGroups]
  | cons kv rest ih =>
    obtain ⟨k, ps⟩ := kv
    simp only [List.map_cons, List.nodup_cons] at hnd
    by_cases hk : k = h
    · subst hk
      rw [addToGroups_cons_self]
      simp only [List.map_cons, List.nodup_cons]
      exact hnd
    · rw [addToGroups_cons_ne k h ps rest p hk]
      simp only [List.map_cons, List.nodup_cons]
      refine ⟨fun hmem => ?_, ih hnd.2⟩
      rcases mem_keys_addToGroups rest h p k hmem with hm | hm
      · exact hnd.1 hm
      · exact hk hm

/-- With duplicate-free keys, membership in the map is lookup. -/
theorem mem_iff_dupLookup (gs : List (List Nat × List (List String)))
    (h : List Nat) (g : List (List String)) (hnd : (gs.map Prod.fst).Nodup) :
    ((h, g) ∈ gs ↔ dupLookup gs h = some g) := by
  induction gs with
  | nil => simp [dupLookup, List.find?]
  | cons kv rest ih =>
    obtain ⟨k, ps⟩ := kv
    simp only [List.map_cons, List.nodup_cons] at hnd
    by_cases hk : k = h
    · subst hk
      rw [dupLookup_cons_self]
      simp only [List.mem_cons, Prod.mk.injEq, Option.some.injEq]
      constructor
      · rintro (⟨-, rfl⟩ | hmem)
        · rfl
        · exact absurd (List.mem_map_of_mem Prod.fst hmem) hnd.1
      · rintro rfl
        exact Or.inl (by simp)
    · rw [dupLookup_cons_ne k h ps rest hk]
      simp only [List.mem_cons, Prod.mk.injEq]
      rw [← ih hnd.2]
      constructor
      · rintro (⟨he, -⟩ | hmem)
        · exact absurd he.symm hk
        · exact hmem
      · exact fun hmem => Or.inr hmem

/-- The duplicate map built by the scanner, with an arbitrary initial
accumulator (the fold step of `duplicate_map`). -/
def dupFold (cfg : Config) (files : List FileRec)
    (gs : List (List Nat × List (List String))) :
    List (List Nat × List (List String)) :=
  files.foldl (fun gs f =>
    if should_exclude cfg f.path then gs
    else
      match get_file_hash f with
      | some h => addToGroups gs h f.path
      | none => gs) gs

/-- `duplicate_map` is the fold from the empty accumulator. -/
theorem duplicate_map_eq_dupFold (cfg : Config) (files : List FileRec) :
    duplicate_map cfg files = dupFold cfg files [] := rfl

/-- The group of a digest after the fold: whatever was there before,
extended by the canonical contributions of the scanned files. -/
theorem dupFold_lookupD (cfg : Config) (files : List FileRec) :
    ∀ gs h, (dupLookup (dupFold cfg files gs) h).getD [] =
      (dupLookup gs h).getD [] ++ dupGroupOf cfg files h := by
  induction files with
  | nil => intro gs h; simp [dupFold, dupGroupOf]
  | cons f fs ih =>
    intro gs h
    simp only [dupFold, List.foldl_cons] at ih ⊢
    by_cases hex : should_exclude cfg f.path
    · rw [if_pos hex, ih]
      simp [dupGroupOf, hex]
    · rw [if_neg hex]
      cases hgf : get_file_hash f with
      | none =>
        rw [ih]
        simp [dupGroupOf, hex, hgf]
      | some hf =>
        by_cases hfh : hf = h
        · subst hfh
          rw [ih, dupLookup_addToGroups_self]
          simp [dupGroupOf, hex, hgf, List.append_assoc]
        · rw [ih, dupLookup_addToGroups_ne gs hf h f.path (Ne.symm hfh)]
          have hcond : (decide (get_file_hash f = some h)) = false := by
            simp [hgf, hfh]
          simp [dupGroupOf, hex, hcond]

/-- A digest is absent from the fold exactly when it was absent before
and no scanned file contributes to it. -/
theorem dupFold_lookup_none (cfg : Config) (files : List FileRec) :
    ∀ gs h, (dupLookup (dupFold cfg files gs) h = none ↔
      (dupLookup gs h = none ∧ dupGroupOf cfg files h = [])) := by
  induction files with
  | nil => intro gs h; simp [dupFold, dupGroupOf]
  | cons f fs ih =>
    intro gs h
    simp only [dupFold, List.foldl_cons] at ih ⊢
    by_cases hex : should_exclude cfg f.path
    · rw [if_pos hex, ih]
      simp [dupGroupOf, hex]
    · rw [if_neg hex]
      cases hgf : get_file_hash f with
      | none =>
        rw [ih]
        simp [dupGroupOf, hex, hgf]
      | some hf =>
        by_cases hfh : hf = h
        · subst hfh
          rw [ih]
          have habs : dupLookup (addToGroups gs hf f.path) hf ≠ none := by
            rw [dupLookup_addToGroups_self]
            simp
          have hgrp : dupGroupOf cfg (f :: fs) hf =
              f.path :: dupGroupOf cfg fs hf := by
            simp [dupGroupOf, hex, hgf]
          rw [hgrp]
          constructor
          · rintro ⟨hnone, -⟩
            exact absurd hnone habs
          · rintro ⟨-, hcontra⟩
            exact absurd hcontra (by simp)
        · rw [ih, dupLookup_addToGroups_ne gs hf h f.path (Ne.symm hfh)]
          have hcond : (decide (get_file_hash f = some h)) = false := by
            simp [hgf, hfh]
          simp [dupGroupOf, hex, hcond]

/-- The fold keeps the keys duplicate-free. -/
theorem dupFold_keys_nodup (cfg : Config) (files : List FileRec) :
    ∀ gs, (gs.map Prod.fst).Nodup → ((dupFold cfg files gs).map Prod.fst).Nodup := by
  induction files with
  | nil => intro gs hnd; simpa [dupFold] using hnd
  | cons f fs ih =>
    intro gs hnd
    simp only [dupFold, List.foldl_cons] at ih ⊢
    by_cases hex : should_exclude cfg f.path
    · rw [if_pos hex]; exact ih gs hnd
    · rw [if_neg hex]
      cases hgf : get_file_hash f with
      | none => exact ih gs hnd
      | some hf => exact ih _ (keys_nodup_addToGroups gs hf f.path hnd)

/-- Membership in the duplicate map is lookup (its keys are
duplicate-free). -/
theorem duplicate_map_mem_iff (cfg : Config) (files : List FileRec)
    (h : List Nat) (g : List (List String)) :
    ((h, g) ∈ duplicate_map cfg files ↔
      dupLookup (duplicate_map cfg files) h = some g) :=
  mem_iff_dupLookup _ h g (by
    rw [duplicate_map_eq_dupFold]
    exact dupFold_keys_nodup cfg files [] (by simp))

/-- A looked-up group of the duplicate map is the canonical group. -/
theorem duplicate_map_lookup_some (cfg : Config) (files : List FileRec)
    (h : List Nat) (g : List (List String))
    (hl : dupLookup (duplicate_map cfg files) h = some g) :
    g = dupGroupOf cfg files h := by
  have hD := dupFold_lookupD cfg files [] h
  rw [← duplicate_map_eq_dupFold, hl] at hD
  simpa [dupLookup, List.find?] using hD

/-- A digest with contributions is present, with its canonical group. -/
theorem duplicate_map_lookup_of_group_ne (cfg : Config) (files : List FileRec)
    (h : List Nat) (hne : dupGroupOf cfg files h ≠ []) :
    dupLookup (duplicate_map cfg files) h = some (dupGroupOf cfg files h) := by
  have hnone := dupFold_lookup_none cfg files [] h
  rw [← duplicate_map_eq_dupFold] at hnone
  cases hl : dupLookup (duplicate_map cfg files) h with
  | none => exact absurd (hnone.mp hl).2 hne
  | some g => rw [duplicate_map_lookup_some cfg files h g hl]

/-- Membership in the returned duplicate index, characterized. -/
theorem find_duplicates_mem_iff (cfg : Config) (files : List FileRec)
    (h : List Nat) (g : List (List String)) :
    ((h, g) ∈ find_duplicate_files cfg files ↔
      (g = dupGroupOf cfg files h ∧ 2 ≤ g.length)) := by
  unfold find_duplicate_files
  rw [List.mem_filter]
  constructor
  · rintro ⟨hmem, hlen⟩
    have hl := (duplicate_map_mem_iff cfg files h g).mp hmem
    refine ⟨duplicate_map_lookup_some cfg files h g hl, ?_⟩
    simpa using hlen
  · rintro ⟨rfl, hlen⟩
    have hne : dupGroupOf cfg files h ≠ [] := by
      intro hcon
      rw [hcon] at hlen
      simp at hlen
    refine ⟨(duplicate_map_mem_iff cfg files h _).mpr
      (duplicate_map_lookup_of_group_ne cfg files h hne), ?_⟩
    simpa using hlen

/-- A file whose read fails contributes nothing: scanning is the same
as scanning only the readable files. -/
theorem dupFold_readOk_filter (cfg : Config) (files : List FileRec) :
    ∀ gs, dupFold cfg files gs = dupFold cfg (files.filter (fun f => f.readOk)) gs := by
  induction files with
  | nil => intro gs; rfl
  | cons f fs ih =>
    intro gs
    cases hro : f.readOk with
    | true =>
      rw [show (f :: fs).filter (fun f => f.readOk) =
          f :: fs.filter (fun f => f.readOk) from by simp [List.filter_cons, hro]]
      simp only [dupFold, List.foldl_cons]
      exact ih _
    | false =>
      have hgf : get_file_hash f = none := by unfold get_file_hash; simp [hro]
      rw [show (f :: fs).filter (fun f => f.readOk) =
          fs.filter (fun f => f.readOk) from by simp [List.filter_cons, hro]]
      simp only [dupFold, List.foldl_cons]
      rw [show (if should_exclude cfg f.path then gs
          else match get_file_hash f with
            | some h => addToGroups gs h f.path
            | none => gs) = gs from by rw [hgf]; split <;> rfl]
      exact ih gs

/-- The duplicate index ignores files whose read fails. -/
theorem find_duplicates_ignore_failures (cfg : Config) (files : List FileRec) :
    find_duplicate_files cfg files =
      find_duplicate_files cfg (files.filter (fun f => f.readOk)) := by
  unfold find_duplicate_files
  rw [duplicate_map_eq_dupFold, duplicate_map_eq_dupFold, dupFold_readOk_filter]

/-- Two distinct members force length at least two. -/
theorem two_le_length_of_mem_ne {α : Type} {l : List α} {a b : α}
    (ha : a ∈ l) (hb : b ∈ l) (hab : a ≠ b) : 2 ≤ l.length := by
  cases l with
  | nil => simp at ha
  | cons x t =>
    cases t with
    | nil =>
      simp only [List.mem_singleton] at ha hb
      exact absurd (ha.trans hb.symm) hab
    | cons y t2 =>
      simp only [List.length_cons]
      omega

/-- A duplicate-free list of length at least two has, for any member,
another member. -/
theorem exists_ne_of_nodup_two_le {α : Type} {l : List α} {a : α}
    (hnd : l.Nodup) (hlen : 2 ≤ l.length) (ha : a ∈ l) : ∃ b ∈ l, b ≠ a := by
  cases l with
  | nil => simp at ha
  | cons x t =>
    cases t with
    | nil => simp at hlen
    | cons y t2 =>
      simp only [List.nodup_cons] at hnd
      by_cases hax : a = x
      · refine ⟨y, by simp, fun e => ?_⟩
        have hxy : x = y := (e.trans hax).symm
        exact hnd.1 (by rw [hxy]; exact List.mem_cons_self y t2)
      · exact ⟨x, by simp, fun e => hax e.symm⟩

/-- The canonical groups are duplicate-free when the scanned paths
are. -/
theorem dupGroupOf_nodup (cfg : Config) (files : List FileRec) (h : List Nat)
    (hnd : (files.map FileRec.path).Nodup) : (dupGroupOf cfg files h).Nodup := by
  unfold dupGroupOf
  exact List.Nodup.sublist
    (List.Sublist.map FileRec.path (List.filter_sublist files)) hnd

/-- Membership in a canonical group, unfolded. -/
theorem mem_dupGroupOf_iff (cfg : Config) (files : List FileRec) (h : List Nat)
    (q : List String) :
    q ∈ dupGroupOf cfg files h ↔
      ∃ f, f ∈ files ∧ should_exclude cfg f.path = false ∧
        get_file_hash f = some h ∧ f.path = q := by
  unfold dupGroupOf
  rw [List.mem_map]
  constructor
  · rintro ⟨f, hf, rfl⟩
    rw [List.mem_filter] at hf
    obtain ⟨hmem, hcond⟩ := hf
    simp only [Bool.and_eq_true, Bool.not_eq_true', decide_eq_true_eq] at hcond
    exact ⟨f, hmem, hcond.1, hcond.2, rfl⟩
  · rintro ⟨f, hmem, hex, hh, rfl⟩
    refine ⟨f, ?_, rfl⟩
    rw [List.mem_filter]
    exact ⟨hmem, by simp [hex, hh]⟩

/-- C6: the duplicate index is exactly the family of canonical groups
with at least two members: a group is returned iff it collects, in walk
order, the non-excluded successfully-hashed files of one digest and has
two or more entries; read failures only omit the failing file; two
byte-identical distinct files always land together in one returned
group; a file whose content is unique appears in no returned group. -/
theorem find_duplicates_characterization (cfg : Config) (files : List FileRec) :
    (∀ h g, (h, g) ∈ find_duplicate_files cfg files ↔
        (g = dupGroupOf cfg files h ∧ 2 ≤ g.length)) ∧
    find_duplicate_files cfg files =
      find_duplicate_files cfg (files.filter (fun f => f.readOk)) ∧
    ((files.map FileRec.path).Nodup →
      (∀ f1 f2, f1 ∈ files → f2 ∈ files → f1.path ≠ f2.path →
        should_exclude cfg f1.path = false → should_exclude cfg f2.path = false →
        f1.readOk = true → f2.readOk = true → f1.bytes = f2.bytes →
        ∃ g, (f1.bytes, g) ∈ find_duplicate_files cfg files ∧
          f1.path ∈ g ∧ f2.path ∈ g ∧ 2 ≤ g.length) ∧
      (∀ f, f ∈ files →
        (∀ f2, f2 ∈ files → f2.path ≠ f.path → f2.bytes ≠ f.bytes) →
        ∀ h g, (h, g) ∈ find_duplicate_files cfg files → f.path ∉ g)) := by
  refine ⟨find_duplicates_mem_iff cfg files,
    find_duplicates_ignore_failures cfg files, fun hnd => ⟨?_, ?_⟩⟩
  · intro f1 f2 hm1 hm2 hpne hex1 hex2 hro1 hro2 hbytes
    have hp1 : f1.path ∈ dupGroupOf cfg files f1.bytes :=
      (mem_dupGroupOf_iff cfg files f1.bytes f1.path).mpr
        ⟨f1, hm1, hex1, (get_file_hash_eq_some f1 f1.bytes).mpr ⟨hro1, rfl⟩, rfl⟩
    have hp2 : f2.path ∈ dupGroupOf cfg files f1.bytes :=
      (mem_dupGroupOf_iff cfg files f1.bytes f2.path).mpr
        ⟨f2, hm2, hex2, (get_file_hash_eq_some f2 f1.bytes).mpr ⟨hro2, hbytes.symm⟩, rfl⟩
    have hlen : 2 ≤ (dupGroupOf cfg files f1.bytes).length :=
      two_le_length_of_mem_ne hp1 hp2 hpne
    exact ⟨dupGroupOf cfg files f1.bytes,
      (find_duplicates_mem_iff cfg files f1.bytes _).mpr ⟨rfl, hlen⟩, hp1, hp2, hlen⟩
  · intro f hmf huniq h g hmem hpg
    obtain ⟨hg, hlen⟩ := (find_duplicates_mem_iff cfg files h g).mp hmem
    subst hg
    obtain ⟨f2, hm2, hex2, hh2, hp2⟩ := (mem_dupGroupOf_iff cfg files h f.path).mp hpg
    have hf2f : f2 = f := List.inj_on_of_nodup_map hnd hm2 hmf hp2
    subst hf2f
    obtain ⟨hro2, hfb2⟩ := (get_file_hash_eq_some f2 h).mp hh2
    have hgnd := dupGroupOf_nodup cfg files h hnd
    obtain ⟨q, hq, hqne⟩ := exists_ne_of_nodup_two_le hgnd hlen hpg
    obtain ⟨f3, hm3, hex3, hh3, hp3⟩ := (mem_dupGroupOf_iff cfg files h q).mp hq
    obtain ⟨hro3, hfb3⟩ := (get_file_hash_eq_some f3 h).mp hh3
    have hne3 : f3.path ≠ f2.path := by
      rw [hp3]
      exact hqne
    exact huniq f3 hm3 hne3 (by rw [hfb3, hfb2])

/-- Witness for C6: the two byte-identical files form the one returned
group; the unique file is absent. -/
theorem find_duplicates_characterization_witness :
    ([9, 9], [["r", "one.txt"], ["r", "two.txt"]]) ∈
      find_duplicate_files cfgStd [fDupOne, fDupTwo, fUnique] :=
  ((find_duplicates_characterization cfgStd [fDupOne, fDupTwo, fUnique]).1
    [9, 9] [["r", "one.txt"], ["r", "two.txt"]]).mpr (by decide)

end FileOrganizer
